import Mathlib

/-!
# Verification of the aidebate citation / UI logic

Shallow embedding of the pure text-processing functions of the aidebate
repository, together with proofs of the specified properties.

Sources embedded here:
* backend/citation_processor.py  — extract_citations (quoted in full in
  frontend/js/app.js, "SOURCE CODE EVIDENCE" section)
* backend/community_routes.py    — execute (consensus threshold check)
* frontend/js/community.js       — renderTopics gate, escapeHtml
* frontend/js/api.js             — startDebate / nextTurn request bodies
* the Text Sanitizer (_strip_thinking_blocks), whose implementation is not
  in the checked sources; it is modelled from the specification (see below).

Strings are modelled as lists of characters.
-/

/-- Python regex class \s for str patterns (no re.ASCII flag), used by the
citation patterns via the \s* between the keyword and the capture group.
It matches Unicode whitespace per Py_UNICODE_ISSPACE: the ASCII whitespace
characters 0x09-0x0D and 0x20, the controls 0x1C-0x1F, next line 0x85,
no-break space 0xA0, Ogham space mark 0x1680, the Zs spaces 0x2000-0x200A,
line separator 0x2028, paragraph separator 0x2029, narrow no-break space
0x202F, medium mathematical space 0x205F and ideographic space 0x3000. -/
def isSpaceChar (c : Char) : Bool :=
  (0x09 ≤ c.toNat && c.toNat ≤ 0x0D) || c.toNat = 0x20 ||
  (0x1C ≤ c.toNat && c.toNat ≤ 0x1F) || c.toNat = 0x85 || c.toNat = 0xA0 ||
  c.toNat = 0x1680 || (0x2000 ≤ c.toNat && c.toNat ≤ 0x200A) ||
  c.toNat = 0x2028 || c.toNat = 0x2029 || c.toNat = 0x202F ||
  c.toNat = 0x205F || c.toNat = 0x3000

/-- The capture group of a successful match of
[Source:\s*([^x]+)x] at some position, where the run of characters strictly
between the keyword and the closing delimiter is u (nonempty).
The greedy \s* consumes the leading whitespace of u, then ([^x]+) captures
the rest; when u is all whitespace, \s* backtracks by one character so that
the group captures exactly the last whitespace character of u. -/
def groupOf (u : List Char) : List Char :=
  let g := u.dropWhile isSpaceChar
  if g.isEmpty then
    match u.getLast? with
    | some c => [c]
    | none => []
  else g

/-- Attempt to match the pattern (openChar)Source:\s*([^close]+)(close) at the
head of s.  The literal is a :: mid where a is the opening delimiter and
mid = "Source:".  On success returns the capture group and the remainder of s
after the match. -/
def matchFrom (a : Char) (mid : List Char) (close : Char) (s : List Char) :
    Option (List Char × List Char) :=
  if (a :: mid).isPrefixOf s then
    let rest := s.drop (mid.length + 1)
    let u := rest.takeWhile (fun c => c ≠ close)
    if u.isEmpty then none
    else if u.length < rest.length then
      some (groupOf u, rest.drop (u.length + 1))
    else none
  else none

/-- The replacement text emitted by replace_with_superscript for citation
number k: the Python f-string "<sup>[{k}]</sup>". -/
def supMarker (k : Nat) : List Char :=
  "<sup>[".data ++ (Nat.repr k).data ++ "]</sup>".data

/-- Model of Python re.sub for the citation patterns, structural on a fuel
argument (one unit per scanned position, which always suffices when the fuel
is at least the length of the scanned text): scan s left to right; at each
position try the pattern; on a match, emit the superscript marker for the
current citation number k, record the citation (k, group), bump the counter,
and continue after the match; otherwise keep the character and move on.
Returns the rewritten text and the recorded citations. -/
def reSubCiteF (a : Char) (mid : List Char) (close : Char) :
    Nat → List Char → Nat → List Char × List (Nat × List Char)
  | 0, s, _ => (s, [])
  | _ + 1, [], _ => ([], [])
  | fuel + 1, c :: rest, k =>
    match matchFrom a mid close (c :: rest) with
    | some (g, after) =>
      let r := reSubCiteF a mid close fuel after (k + 1)
      (supMarker k ++ r.1, (k, g) :: r.2)
    | none =>
      let r := reSubCiteF a mid close fuel rest k
      (c :: r.1, r.2)

/-- re.sub over a whole string: its own length is always enough fuel. -/
def reSubCite (a : Char) (mid : List Char) (close : Char)
    (s : List Char) (k : Nat) : List Char × List (Nat × List Char) :=
  reSubCiteF a mid close s.length s k

/-- backend/citation_processor.py extract_citations: first re.sub with
pattern1 = \[Source:\s*([^\]]+)\], then re.sub with
pattern2 = \(Source:\s*([^\)]+)\) on the pattern1 output; both share the
replace_with_superscript callback, whose citation counter starts at 1 and
persists across the two passes, and which appends to one citations list. -/
def extract_citations (text : List Char) : List Char × List (Nat × List Char) :=
  let r1 := reSubCite '[' "Source:".data ']' text 1
  let r2 := reSubCite '(' "Source:".data ')' r1.1 (1 + r1.2.length)
  (r2.1, r1.2 ++ r2.2)

/-- Whether pat occurs as a contiguous subsequence of s (specification-side
helper used to state when the citation patterns cannot match). -/
def containsSeq (pat : List Char) : List Char → Bool
  | [] => pat.isEmpty
  | c :: rest => pat.isPrefixOf (c :: rest) || containsSeq pat rest

/-- Ghost observer of reSubCiteF: the citation numbers stamped into the
superscript markers that the scan places into the rewritten text, in the
order they are placed.  Mirrors the recursion of reSubCiteF exactly. -/
def placedIdsF (a : Char) (mid : List Char) (close : Char) :
    Nat → List Char → Nat → List Nat
  | 0, _, _ => []
  | _ + 1, [], _ => []
  | fuel + 1, c :: rest, k =>
    match matchFrom a mid close (c :: rest) with
    | some (_, after) => k :: placedIdsF a mid close fuel after (k + 1)
    | none => placedIdsF a mid close fuel rest k

/-- The citation numbers stamped into footnote markers during the two
re.sub passes of extract_citations, in placement order. -/
def citationsPlacedIds (text : List Char) : List Nat :=
  let r1 := reSubCite '[' "Source:".data ']' text 1
  placedIdsF '[' "Source:".data ']' text.length text 1 ++
    placedIdsF '(' "Source:".data ')' r1.1.length r1.1 (1 + r1.2.length)

/-- The character class of the regex /[&<>"']/g in escapeHtml
(frontend/js/community.js). -/
def escMatches (c : Char) : Bool :=
  c = '&' || c = '<' || c = '>' || c = Char.ofNat 34 || c = Char.ofNat 39

/-- The map object of escapeHtml (frontend/js/community.js). -/
def htmlEscapeMap : List (Char × List Char) :=
  [('&', "&amp;".data), ('<', "&lt;".data), ('>', "&gt;".data),
   (Char.ofNat 34, "&quot;".data), (Char.ofNat 39, "&#039;".data)]

/-- frontend/js/community.js escapeHtml: text.replace(/[&<>"']/g, m => map[m]).
The regex class matches single characters, so the replace is a left-to-right
per-character substitution through the map object. -/
def escapeHtml : List Char → List Char
  | [] => []
  | c :: rest =>
    (if escMatches c then (htmlEscapeMap.lookup c).getD [c] else [c]) ++
      escapeHtml rest

/-- Specification-side per-character description of escapeHtml, transcribed
from the claim wording: each of the five characters maps to its HTML entity
and every other character is unchanged.  Compared against escapeHtml. -/
def escapeCharSpec (c : Char) : List Char :=
  if c = '&' then "&amp;".data
  else if c = '<' then "&lt;".data
  else if c = '>' then "&gt;".data
  else if c = Char.ofNat 34 then "&quot;".data
  else if c = Char.ofNat 39 then "&#039;".data
  else [c]

/-- frontend/js/api.js API.startDebate(topic, model1, model2, proModel):
the JSON request body sent to POST /api/debate/start, as ordered
key/value pairs. -/
def startDebateBody (topic model1 model2 proModel : String) :
    List (String × String) :=
  [("topic", topic), ("model1", model1), ("model2", model2),
   ("pro_model", proModel)]

/-- frontend/js/api.js API.nextTurn(sessionId, moderatorMessage):
the JSON request body sent to POST /api/debate/turn.  The function has
exactly these two parameters; the body carries exactly these two fields. -/
def nextTurnBody (sessionId moderatorMessage : String) :
    List (String × String) :=
  [("session_id", sessionId), ("moderator_message", moderatorMessage)]

/-- frontend/js/app.js interjectInDebate calls
API.nextTurn(currentSession.session_id, message, true): the third argument
has no corresponding parameter in API.nextTurn and is dropped by JavaScript,
so the request body built for an interjection is just nextTurnBody. -/
def interjectTurnRequestBody (sessionId message : String) :
    List (String × String) :=
  nextTurnBody sessionId message

/-- JavaScript Math.round for the nonnegative scores used here: round half
up, i.e. the floor of x + 1/2. -/
def jsRound (x : ℚ) : ℤ := ⌊x + 1 / 2⌋

/-- frontend/js/community.js renderTopics: the Run Debate button is shown
iff scorePercent > 50 where scorePercent = Math.round(consensus_score * 100). -/
def runButtonShown (s : ℚ) : Prop := 50 < jsRound (s * 100)

/-- backend/community_routes.py execute: the request is rejected iff
target_topic consensus_score <= 0.5. -/
def executeRejectsConsensus (s : ℚ) : Prop := s ≤ 1 / 2

/-- Modelled from the spec: step 1 helper of the Text Sanitizer.  Scan for
the first occurrence of pat and return the remainder after it, if any. -/
def dropThroughSeq (pat : List Char) : List Char → Option (List Char)
  | [] => if pat.isEmpty then some [] else none
  | c :: rest =>
    if pat.isPrefixOf (c :: rest) then some ((c :: rest).drop pat.length)
    else dropThroughSeq pat rest

/-- Modelled from the spec: removal of explicit reasoning-block delimiters
and their enclosed content, i.e. every matched pair of think tags together
with everything between them; an unmatched opening tag is left as literal
text.  Structural on a fuel argument (one unit per removed block or scanned
character; the length of the input always suffices). -/
def removeThinkF : Nat → List Char → List Char
  | 0, s => s
  | _ + 1, [] => []
  | fuel + 1, c :: rest =>
    if ("<think>".data).isPrefixOf (c :: rest) then
      match dropThroughSeq ("</think>".data) ((c :: rest).drop 7) with
      | some r => removeThinkF fuel r
      | none => c :: rest
    else c :: removeThinkF fuel rest

/-- Modelled from the spec: reasoning-block removal over a whole string. -/
def removeThink (s : List Char) : List Char := removeThinkF s.length s

/-- Split on newline characters. -/
def splitLinesAux : List Char → List Char → List (List Char)
  | [], acc => [acc.reverse]
  | c :: rest, acc =>
    if c = Char.ofNat 10 then acc.reverse :: splitLinesAux rest []
    else splitLinesAux rest (c :: acc)

/-- Split a text into its lines. -/
def splitLines (s : List Char) : List (List Char) := splitLinesAux s []

/-- Join lines back with newline separators. -/
def joinLines : List (List Char) → List Char
  | [] => []
  | [l] => l
  | l :: rest => l ++ Char.ofNat 10 :: joinLines rest

/-- Modelled from the spec: a numbered planning header line — a leading
integer immediately followed by a period. -/
def isHeaderLine (l : List Char) : Bool :=
  let ds := l.takeWhile Char.isDigit
  match l.drop ds.length with
  | c :: _ => !ds.isEmpty && c = '.'
  | [] => false

/-- Modelled from the spec: the text (joined lines) following the LAST
numbered planning header line, if any header line exists. -/
def afterLastHeader : List (List Char) → Option (List Char)
  | [] => none
  | l :: rest =>
    match afterLastHeader rest with
    | some t => some t
    | none => if isHeaderLine l then some (joinLines rest) else none

/-- Modelled from the spec: locate the last numbered header of a text. -/
def lastHeaderTail (s : List Char) : Option (List Char) :=
  afterLastHeader (splitLines s)

/-- Bullet-artifact characters stripped at line starts. -/
def isBulletChar (c : Char) : Bool := c = '-' || c = '*' || c = '•'

/-- Modelled from the spec: strip leading bullet-artifact characters at the
start of every line. -/
def stripBulletArtifacts (s : List Char) : List Char :=
  joinLines ((splitLines s).map (fun l => l.dropWhile isBulletChar))

/-- Modelled from the spec: the Text Sanitizer _strip_thinking_blocks, whose
implementation is absent from the checked sources (only its signature and
comment skeleton appear in the architecture document).  Steps: (1) remove
reasoning-block delimiters and enclosed content; (2) if a numbered planning
header exists, keep the text after the last one provided it is a substantial
paragraph (more than 40 characters); (3) otherwise strip leading
bullet-artifact characters at line starts; edge case: if the result is empty
or below the threshold, fall back to the nearest non-empty candidate (the
think-stripped text, else the raw text) rather than returning nothing. -/
def strip_thinking_blocks (raw : List Char) : List Char :=
  let s1 := removeThink raw
  let fb := if s1.isEmpty then raw else s1
  match lastHeaderTail s1 with
  | some t => if 40 < t.length then t else fb
  | none =>
    let b := stripBulletArtifacts s1
    if b.isEmpty then fb else b

/-!
## Helper lemmas
-/

theorem matchFrom_some_length {a : Char} {mid : List Char} {close : Char}
    {s g after : List Char} (h : matchFrom a mid close s = some (g, after)) :
    after.length < s.length := by
  unfold matchFrom at h
  dsimp only at h
  split at h
  case isFalse => exact absurd h (by simp)
  case isTrue hp =>
    split at h
    case isTrue => exact absurd h (by simp)
    case isFalse he =>
      split at h
      case isFalse => exact absurd h (by simp)
      case isTrue hl =>
        simp only [Option.some.injEq, Prod.mk.injEq] at h
        have hafter : after =
            (s.drop (mid.length + 1)).drop
              (((s.drop (mid.length + 1)).takeWhile (fun c => c ≠ close)).length + 1) :=
          h.2.symm
        have h1 : (s.drop (mid.length + 1)).length ≤ s.length := by
          rw [List.length_drop]; omega
        have h2 : after.length =
            (s.drop (mid.length + 1)).length -
              (((s.drop (mid.length + 1)).takeWhile (fun c => c ≠ close)).length + 1) := by
          rw [hafter, List.length_drop]
        omega

theorem reSubCiteF_nil (a : Char) (mid : List Char) (close : Char)
    (fuel k : Nat) : reSubCiteF a mid close fuel [] k = ([], []) := by
  cases fuel <;> rfl

theorem reSubCiteF_ids (a : Char) (mid : List Char) (close : Char) :
    ∀ (fuel : Nat) (s : List Char) (k : Nat), s.length ≤ fuel →
      (reSubCiteF a mid close fuel s k).2.map Prod.fst =
        List.range' k (reSubCiteF a mid close fuel s k).2.length
  | 0, s, k, h => by
    have : s = [] := by
      cases s with
      | nil => rfl
      | cons c t => simp at h
    subst this
    simp [reSubCiteF]
  | fuel + 1, [], k, _ => by simp [reSubCiteF]
  | fuel + 1, c :: rest, k, h => by
    cases hm : matchFrom a mid close (c :: rest) with
    | some ga =>
      obtain ⟨g, after⟩ := ga
      have hlen : after.length ≤ fuel := by
        have h2 := matchFrom_some_length hm
        simp only [List.length_cons] at h2 h
        omega
      have ih := reSubCiteF_ids a mid close fuel after (k + 1) hlen
      simp only [reSubCiteF, hm, List.map_cons, List.length_cons]
      rw [List.range'_succ, ih]
    | none =>
      have hlen : rest.length ≤ fuel := by
        simp only [List.length_cons] at h
        omega
      have ih := reSubCiteF_ids a mid close fuel rest k hlen
      simp only [reSubCiteF, hm]
      exact ih

theorem matchFrom_none_of_not_pre (a : Char) (mid : List Char) (close : Char)
    (s : List Char) (h : (a :: mid).isPrefixOf s = false) :
    matchFrom a mid close s = none := by
  unfold matchFrom
  simp [h]

theorem reSubCiteF_of_not_contains (a : Char) (mid : List Char) (close : Char) :
    ∀ (fuel : Nat) (s : List Char) (k : Nat),
      containsSeq (a :: mid) s = false →
      reSubCiteF a mid close fuel s k = (s, [])
  | 0, s, k, _ => rfl
  | fuel + 1, [], k, _ => rfl
  | fuel + 1, c :: rest, k, h => by
    have hsplit : (a :: mid).isPrefixOf (c :: rest) = false ∧
        containsSeq (a :: mid) rest = false := by
      unfold containsSeq at h
      exact Bool.or_eq_false_iff.mp h
    have ih := reSubCiteF_of_not_contains a mid close fuel rest k hsplit.2
    simp [reSubCiteF, matchFrom_none_of_not_pre a mid close _ hsplit.1, ih]

theorem placedIdsF_eq (a : Char) (mid : List Char) (close : Char) :
    ∀ (fuel : Nat) (s : List Char) (k : Nat),
      placedIdsF a mid close fuel s k =
        (reSubCiteF a mid close fuel s k).2.map Prod.fst
  | 0, s, k => by simp [placedIdsF, reSubCiteF]
  | fuel + 1, [], k => by simp [placedIdsF, reSubCiteF]
  | fuel + 1, c :: rest, k => by
    cases hm : matchFrom a mid close (c :: rest) with
    | some ga =>
      obtain ⟨g, after⟩ := ga
      have ih := placedIdsF_eq a mid close fuel after (k + 1)
      simp [placedIdsF, reSubCiteF, hm, ih]
    | none =>
      have ih := placedIdsF_eq a mid close fuel rest k
      simp [placedIdsF, reSubCiteF, hm, ih]

theorem extract_citations_ids (text : List Char) :
    (extract_citations text).2.map Prod.fst =
      List.range' 1 (extract_citations text).2.length := by
  unfold extract_citations
  dsimp only
  rw [List.map_append, List.length_append]
  have h1 := reSubCiteF_ids '[' "Source:".data ']'
    text.length text 1 (Nat.le_refl _)
  have h2 := reSubCiteF_ids '(' "Source:".data ')'
    (reSubCite '[' "Source:".data ']' text 1).1.length
    (reSubCite '[' "Source:".data ']' text 1).1
    (1 + (reSubCite '[' "Source:".data ']' text 1).2.length) (Nat.le_refl _)
  unfold reSubCite at h1 h2 ⊢
  rw [h1, h2]
  simp [Nat.add_comm]

theorem escapeChar_step (c : Char) :
    (if escMatches c then (htmlEscapeMap.lookup c).getD [c] else [c]) =
      escapeCharSpec c := by
  by_cases h1 : c = '&'
  · subst h1; decide
  by_cases h2 : c = '<'
  · subst h2; decide
  by_cases h3 : c = '>'
  · subst h3; decide
  by_cases h4 : c = Char.ofNat 34
  · subst h4; decide
  by_cases h5 : c = Char.ofNat 39
  · subst h5; decide
  have hm : escMatches c = false := by
    unfold escMatches
    simp [h1, h2, h3, h4, h5]
  rw [hm]
  unfold escapeCharSpec
  simp [h1, h2, h3, h4, h5]

theorem escapeHtml_eq_flatMap (s : List Char) :
    escapeHtml s = s.flatMap escapeCharSpec := by
  induction s with
  | nil => rfl
  | cons c rest ih =>
    rw [List.flatMap_cons, ← ih, ← escapeChar_step c]
    rfl

theorem escapeCharSpec_safe (d c : Char) (h : c ∈ escapeCharSpec d) :
    c ≠ '<' ∧ c ≠ '>' ∧ c ≠ Char.ofNat 34 ∧ c ≠ Char.ofNat 39 := by
  unfold escapeCharSpec at h
  by_cases h1 : d = '&'
  · simp only [h1, if_true] at h
    fin_cases h <;> decide
  rw [if_neg h1] at h
  by_cases h2 : d = '<'
  · simp only [h2, if_true] at h
    fin_cases h <;> decide
  rw [if_neg h2] at h
  by_cases h3 : d = '>'
  · simp only [h3, if_true] at h
    fin_cases h <;> decide
  rw [if_neg h3] at h
  by_cases h4 : d = Char.ofNat 34
  · simp only [h4, if_true] at h
    fin_cases h <;> decide
  rw [if_neg h4] at h
  by_cases h5 : d = Char.ofNat 39
  · simp only [h5, if_true] at h
    fin_cases h <;> decide
  rw [if_neg h5] at h
  have : c = d := by simpa using h
  subst this
  exact ⟨h2, h3, h4, h5⟩

/-- C9: escapeHtml replaces each occurrence of the five special characters
by its HTML entity and leaves every other character unchanged, so its output
never contains a literal less-than, greater-than, double-quote or apostrophe
character. -/
theorem escapeHtml_entities_and_safe (s : List Char) :
    escapeHtml s = s.flatMap escapeCharSpec ∧
    ∀ c ∈ escapeHtml s,
      c ≠ '<' ∧ c ≠ '>' ∧ c ≠ Char.ofNat 34 ∧ c ≠ Char.ofNat 39 := by
  refine ⟨escapeHtml_eq_flatMap s, ?_⟩
  intro c hc
  rw [escapeHtml_eq_flatMap s] at hc
  obtain ⟨d, _, hd⟩ := List.mem_flatMap.mp hc
  exact escapeCharSpec_safe d c hd

/-- C9 (witness): applying the theorem to the concrete input consisting of a
single less-than sign, whose escape is the entity string. -/
theorem escapeHtml_entities_and_safe_witness :
    ('l' : Char) ≠ '<' ∧ ('l' : Char) ≠ '>' ∧
      ('l' : Char) ≠ Char.ofNat 34 ∧ ('l' : Char) ≠ Char.ofNat 39 :=
  (escapeHtml_entities_and_safe "<".data).2 'l' (by decide)

/-- C3: the turn request built by the client for a moderator interjection
carries only session_id and moderator_message; the is_interjection flag the
call site tries to pass (third argument of API.nextTurn at
frontend/js/app.js interjectInDebate) has no parameter to bind to and never
reaches the request body. -/
theorem interject_request_lacks_flag :
    interjectTurnRequestBody "s1" "point of order" =
      [("session_id", "s1"), ("moderator_message", "point of order")] ∧
    "is_interjection" ∉
      (interjectTurnRequestBody "s1" "point of order").map Prod.fst := by
  refine ⟨rfl, ?_⟩
  decide

/-- C6 (counterexample): the concrete start-debate request body has exactly
the fields topic, model1, model2, pro_model — no flow-size selection is
carried, contrary to the claim that the client request carries one. -/
theorem startDebate_concrete_no_flow_size :
    startDebateBody "AI" "glm" "devstral" "glm" =
      [("topic", "AI"), ("model1", "glm"), ("model2", "devstral"),
       ("pro_model", "glm")] ∧
    "flow_size" ∉
      (startDebateBody "AI" "glm" "devstral" "glm").map Prod.fst := by
  refine ⟨rfl, ?_⟩
  decide

/-- C6 (amended): startDebate takes topic, the two model ids and which side
model1 argues; the start-debate request body carries exactly those four
fields and no flow-size selection, so the flow length is not chosen by the
client. -/
theorem startDebate_body_fields (topic model1 model2 proModel : String) :
    (startDebateBody topic model1 model2 proModel).map Prod.fst =
      ["topic", "model1", "model2", "pro_model"] ∧
    "flow_size" ∉
      (startDebateBody topic model1 model2 proModel).map Prod.fst := by
  refine ⟨rfl, ?_⟩
  intro hmem
  rw [show (startDebateBody topic model1 model2 proModel).map Prod.fst =
    ["topic", "model1", "model2", "pro_model"] from rfl] at hmem
  revert hmem
  decide

/-- C10: for every consensus score between 0 and 1, if the community UI
shows the Run Debate button (Math.round(score * 100) > 50) then the backend
execute endpoint threshold check (reject when score <= 0.5) accepts the
topic: the frontend gate is at least as strict as the backend check. -/
theorem run_button_implies_backend_accept (s : ℚ)
    (_h0 : 0 ≤ s) (_h1 : s ≤ 1) (h : runButtonShown s) :
    ¬ executeRejectsConsensus s := by
  unfold runButtonShown jsRound at h
  unfold executeRejectsConsensus
  intro hle
  have h51 : (51 : ℤ) ≤ ⌊s * 100 + 1 / 2⌋ := by omega
  have hq : ((51 : ℤ) : ℚ) ≤ s * 100 + 1 / 2 := Int.le_floor.mp h51
  push_cast at hq
  linarith

/-- C10 (witness): at score 51/100 the button is shown and the backend
accepts. -/
theorem run_button_implies_backend_accept_witness :
    ¬ executeRejectsConsensus (51 / 100 : ℚ) := by
  refine run_button_implies_backend_accept (51 / 100) (by norm_num)
    (by norm_num) ?_
  unfold runButtonShown jsRound
  have : ((51 : ℚ) / 100 * 100 + 1 / 2) = 103 / 2 := by norm_num
  rw [this]
  have hfl : ⌊(103 / 2 : ℚ)⌋ = 51 := by
    rw [Int.floor_eq_iff]
    norm_num
  rw [hfl]
  norm_num

/-- C7: for every raw model output that is non-empty and has at least one
non-whitespace character outside the reasoning-block delimiters (i.e. in the
think-stripped text), the sanitizer returns a non-empty string, because each
branch either returns a paragraph longer than the threshold or falls back to
the nearest non-empty candidate. -/
theorem strip_thinking_blocks_nonempty (raw : List Char)
    (hraw : raw ≠ [])
    (hout : (removeThink raw).any (fun c => !(isSpaceChar c)) = true) :
    strip_thinking_blocks raw ≠ [] := by
  have hs1 : removeThink raw ≠ [] := by
    intro hnil
    rw [hnil] at hout
    simp at hout
  have hfb : (if (removeThink raw).isEmpty then raw else removeThink raw) ≠ [] := by
    split
    · exact hraw
    · exact hs1
  unfold strip_thinking_blocks
  dsimp only
  cases hlt : lastHeaderTail (removeThink raw) with
  | some t =>
    dsimp only
    split
    case isTrue hlen =>
      intro hnil
      rw [hnil] at hlen
      simp at hlen
    case isFalse => exact hfb
  | none =>
    dsimp only
    split
    case isTrue => exact hfb
    case isFalse hb =>
      intro hnil
      rw [hnil] at hb
      simp at hb

/-- C7 (witness): a concrete raw output with a think block followed by real
content sanitizes to a non-empty string. -/
theorem strip_thinking_blocks_nonempty_witness :
    strip_thinking_blocks "<think>plan the rebuttal</think>Water is wet.".data ≠ [] :=
  strip_thinking_blocks_nonempty
    "<think>plan the rebuttal</think>Water is wet.".data
    (by decide) (by decide)

/-- C8: extract_citations on the scenario input returns citations
[(1, NASA), (2, IPCC)] and a rewritten text with the footnote marker for 1
before the footnote marker for 2. -/
theorem extract_citations_scenario :
    extract_citations "Fact one [Source: NASA]. Fact two (Source: IPCC).".data =
      ("Fact one ".data ++ supMarker 1 ++ ". Fact two ".data ++
        supMarker 2 ++ ".".data,
       [(1, "NASA".data), (2, "IPCC".data)]) := by decide

/-- C1 (counterexample): on an input where a parenthesized citation precedes
a bracketed one, extract_citations numbers the bracketed citation 1 and the
parenthesized one 2 — not the left-to-right textual order 
(A, appearing first, would have to receive number 1). -/
theorem extract_citations_not_left_to_right :
    extract_citations "(Source: A) [Source: B]".data =
      (supMarker 2 ++ " ".data ++ supMarker 1,
       [(1, "B".data), (2, "A".data)]) ∧
    (extract_citations "(Source: A) [Source: B]".data).2 ≠
      [(1, "A".data), (2, "B".data)] := by decide

/-- C1 (amended): footnote numbers start at 1 and increment per occurrence
in processing order, not textual order: the citation list is the bracket-pass
citations followed by the paren-pass citations; the bracket pass numbers its
occurrences 1..n1 in left-to-right order, and the paren pass continues with
n1+1, n1+2, ... in left-to-right order of the bracket-rewritten text. -/
theorem extract_citations_numbering_pass_order (s : List Char) :
    (extract_citations s).2 =
      (reSubCite '[' "Source:".data ']' s 1).2 ++
        (reSubCite '(' "Source:".data ')'
          (reSubCite '[' "Source:".data ']' s 1).1
          (1 + (reSubCite '[' "Source:".data ']' s 1).2.length)).2 ∧
    (reSubCite '[' "Source:".data ']' s 1).2.map Prod.fst =
      List.range' 1 (reSubCite '[' "Source:".data ']' s 1).2.length ∧
    (reSubCite '(' "Source:".data ')'
        (reSubCite '[' "Source:".data ']' s 1).1
        (1 + (reSubCite '[' "Source:".data ']' s 1).2.length)).2.map Prod.fst =
      List.range' (1 + (reSubCite '[' "Source:".data ']' s 1).2.length)
        (reSubCite '(' "Source:".data ')'
          (reSubCite '[' "Source:".data ']' s 1).1
          (1 + (reSubCite '[' "Source:".data ']' s 1).2.length)).2.length := by
  refine ⟨rfl, ?_, ?_⟩
  · exact reSubCiteF_ids '[' "Source:".data ']' s.length s 1 (Nat.le_refl _)
  · exact reSubCiteF_ids '(' "Source:".data ')' _ _ _ (Nat.le_refl _)

/-- C5: the citation ids returned by extract_citations are exactly the
contiguous sequence 1..N (hence pairwise distinct), and every citation
number stamped into a footnote marker placed during the rewriting is one of
those ids. -/
theorem extract_citations_ids_contiguous (text : List Char) :
    (extract_citations text).2.map Prod.fst =
      List.range' 1 (extract_citations text).2.length ∧
    ((extract_citations text).2.map Prod.fst).Nodup ∧
    ∀ k ∈ citationsPlacedIds text,
      k ∈ (extract_citations text).2.map Prod.fst := by
  refine ⟨extract_citations_ids text, ?_, ?_⟩
  · rw [extract_citations_ids text]
    exact List.nodup_range' _ _
  · intro k hk
    unfold citationsPlacedIds at hk
    dsimp only at hk
    unfold extract_citations
    dsimp only
    rw [List.map_append]
    unfold reSubCite at hk ⊢
    rw [placedIdsF_eq, placedIdsF_eq] at hk
    exact hk

/-- C2 (counterexample): extract_citations is not idempotent on its own
output.  An unclosed bracket marker prefix survives the first run, and the
footnote emitted for the parenthesized citation supplies the closing bracket
that makes the prefix match on the second run, which rewrites the text again
and records a fresh citation. -/
theorem extract_citations_not_idempotent :
    extract_citations "[Source: (Source: x)".data =
      ("[Source: <sup>[1]</sup>".data, [(1, "x".data)]) ∧
    extract_citations ((extract_citations "[Source: (Source: x)".data).1) =
      ("<sup>[1]</sup></sup>".data, [(1, "<sup>[1".data)]) ∧
    extract_citations ((extract_citations "[Source: (Source: x)".data).1) ≠
      ((extract_citations "[Source: (Source: x)".data).1, []) := by decide

/-- C2 (amended): extract_citations is idempotent on its own output
whenever that output retains no occurrence of the marker prefix
[Source: or (Source: — in particular the emitted footnote syntax alone
matches neither extraction pattern; re-running then returns the text
unchanged and records no citation. -/
theorem extract_citations_idempotent_of_no_residual (s : List Char)
    (h1 : containsSeq ('[' :: "Source:".data) (extract_citations s).1 = false)
    (h2 : containsSeq ('(' :: "Source:".data) (extract_citations s).1 = false) :
    extract_citations (extract_citations s).1 =
      ((extract_citations s).1, []) := by
  generalize hT : (extract_citations s).1 = t at h1 h2
  have e1 : reSubCite '[' "Source:".data ']' t 1 = (t, []) :=
    reSubCiteF_of_not_contains '[' "Source:".data ']' t.length t 1 h1
  have e2 : reSubCite '(' "Source:".data ')' t 1 = (t, []) :=
    reSubCiteF_of_not_contains '(' "Source:".data ')' t.length t 1 h2
  unfold extract_citations
  dsimp only
  rw [e1]
  simpa using e2

/-- C2 (witness): on a text whose citations are all well-formed the output
has no residual marker prefix and re-running is the identity. -/
theorem extract_citations_idempotent_witness :
    extract_citations
        ((extract_citations "A [Source: NASA] and (Source: IPCC) B".data).1) =
      ((extract_citations "A [Source: NASA] and (Source: IPCC) B".data).1,
        []) :=
  extract_citations_idempotent_of_no_residual
    "A [Source: NASA] and (Source: IPCC) B".data (by decide) (by decide)

theorem takeWhile_not_close (t : List Char) (hcl : ']' ∉ t) :
    (t ++ [']']).takeWhile (fun c => c ≠ ']') = t := by
  rw [List.takeWhile_append_of_pos]
  · simp
  · intro c hc
    simp only [ne_eq, decide_not, Bool.not_eq_true', decide_eq_false_iff_not]
    intro heq
    exact hcl (heq ▸ hc)

theorem matchFrom_bracket_marker (t : List Char) (ht : t ≠ [])
    (hcl : ']' ∉ t) :
    matchFrom '[' "Source:".data ']' ("[Source:".data ++ (t ++ [']'])) =
      some (groupOf t, []) := by
  unfold matchFrom
  have hpre : ('[' :: "Source:".data).isPrefixOf
      ("[Source:".data ++ (t ++ [']'])) = true := by
    have hl : ('[' :: "Source:".data) ++ (t ++ [']']) =
        "[Source:".data ++ (t ++ [']']) := rfl
    rw [← hl]
    exact List.isPrefixOf_iff_prefix.mpr (List.prefix_append _ _)
  rw [if_pos hpre]
  dsimp only
  have hdrop : ("[Source:".data ++ (t ++ [']'])).drop
      ("Source:".data.length + 1) = t ++ [']'] := by
    have hlen : "Source:".data.length + 1 = "[Source:".data.length := rfl
    rw [hlen]
    exact List.drop_left _ _
  rw [hdrop, takeWhile_not_close t hcl]
  have hne : t.isEmpty = false := by
    cases t
    · exact absurd rfl ht
    · rfl
  rw [hne]
  have hlt : t.length < (t ++ [']']).length := by simp
  rw [if_neg (by simp), if_pos hlt]
  have hdrop2 : (t ++ [']']).drop (t.length + 1) = [] := by
    have : t.length + 1 = (t ++ [']']).length := by simp
    rw [this, List.drop_length]
  rw [hdrop2]

theorem extract_marker_general (t : List Char) (ht : t ≠ [])
    (hcl : ']' ∉ t) :
    extract_citations ("[Source:".data ++ (t ++ [']'])) =
      (supMarker 1, [(1, groupOf t)]) := by
  have hin : "[Source:".data ++ (t ++ [']']) =
      '[' :: ("Source:".data ++ (t ++ [']'])) := rfl
  have hmatch := matchFrom_bracket_marker t ht hcl
  rw [hin] at hmatch
  have hr1 : reSubCite '[' "Source:".data ']'
      ("[Source:".data ++ (t ++ [']'])) 1 = (supMarker 1, [(1, groupOf t)]) := by
    unfold reSubCite
    rw [hin]
    simp only [List.length_cons]
    simp only [reSubCiteF, hmatch]
    simp
  have hr2 : reSubCite '(' "Source:".data ')' (supMarker 1) 2 =
      (supMarker 1, []) :=
    reSubCiteF_of_not_contains '(' "Source:".data ')'
      (supMarker 1).length (supMarker 1) 2 (by decide)
  unfold extract_citations
  dsimp only
  rw [hr1]
  simp only [List.length_cons, List.length_nil, Nat.zero_add]
  rw [show (1 + 1 : Nat) = 2 from rfl]
  rw [hr2]
  simp

/-- C4 (counterexample): matching is case-sensitive — [source: X] is not
extracted at all while [Source: X] is — and trailing whitespace of the cited
text is kept, so the stored source_text is not the trimmed text. -/
theorem extract_citations_case_trim_counterexample :
    extract_citations "[source: X]".data = ("[source: X]".data, []) ∧
    (extract_citations "[Source: X]".data).2 = [(1, "X".data)] ∧
    (extract_citations "[Source: NASA ]".data).2 = [(1, "NASA ".data)] := by
  decide

/-- C4 (amended): extract_citations matches the keyword Source:
case-sensitively ([SOURCE: X], like [source: X], is left unchanged and not
extracted), and for a bracketed marker the stored source_text is the text
between the markers with only its leading whitespace removed (trailing
whitespace is preserved; if the text is all whitespace a single whitespace
character is stored), as computed by groupOf. -/
theorem extract_citations_case_sensitive_left_trim :
    extract_citations "[SOURCE: X]".data = ("[SOURCE: X]".data, []) ∧
    ∀ t : List Char, t ≠ [] → ']' ∉ t →
      extract_citations ("[Source:".data ++ (t ++ [']'])) =
        (supMarker 1, [(1, groupOf t)]) :=
  ⟨by decide, extract_marker_general⟩

/-- C4 (witness): applying the amended theorem at the concrete between-text
" NASA " extracts source_text "NASA " — leading space trimmed, trailing
space kept. -/
theorem extract_citations_case_sensitive_left_trim_witness :
    extract_citations ("[Source:".data ++ (" NASA ".data ++ [']'])) =
      (supMarker 1, [(1, "NASA ".data)]) := by
  have h := extract_citations_case_sensitive_left_trim.2 " NASA ".data
    (by decide) (by decide)
  rw [h]
  rw [show groupOf " NASA ".data = "NASA ".data from by decide]
